import Mathlib

set_option maxHeartbeats 1000000

/- Shallow embedding of the mixed-motive public-goods game core
   (game_logic.py: Player, LLMAgent, Game).  Python dicts with string keys
   are modelled as insertion-ordered association lists whose keys are kept
   unique by `dinsert`; numbers are rationals; the external LLM API is an
   oracle parameter returning either a response text or an exception. -/

/-- A Python dict with string keys, in insertion order. -/
abbrev Dict (α : Type) := List (String × α)

/-- First-match lookup (the unique match when keys are distinct). -/
def dlookup {α : Type} (k : String) : Dict α → Option α
  | [] => none
  | (k', v) :: rest => if k' = k then some v else dlookup k rest

/-- Python `m.get(k, d)`. -/
def dget {α : Type} (m : Dict α) (k : String) (d : α) : α :=
  (dlookup k m).getD d

/-- The key list of a dict. -/
def dkeys {α : Type} (m : Dict α) : List String := m.map Prod.fst

/-- Python `m[k] = v`: overwrite in place if the key exists, else append. -/
def dinsert {α : Type} (k : String) (v : α) : Dict α → Dict α
  | [] => [(k, v)]
  | (k', v') :: rest => if k' = k then (k, v) :: rest else (k', v') :: dinsert k v rest

/-- Python `m[k] = f(m[k])` on an existing key; a missing key is left
    untouched (the Python code would raise KeyError there, a path that is
    unreachable because earnings keys are created for every player at
    construction). -/
def dadjust {α : Type} (k : String) (f : α → α) : Dict α → Dict α
  | [] => []
  | (k', v) :: rest => if k' = k then (k', f v) :: rest else (k', v) :: dadjust k f rest

/-- Python `sum(m.values())`. -/
def sumValues (m : Dict ℚ) : ℚ := (m.map Prod.snd).sum

/-- Game phases (Game.phase strings "INVESTMENT", "DISCUSSION", "GAMEOVER"). -/
inductive Phase
  | INVESTMENT
  | DISCUSSION
  | GAMEOVER
  deriving DecidableEq

/-- Class discriminator: a plain `Player`, or an `LLMAgent` with its
    (lowercased) provider and the resolved model name set by
    `_initialize_client`. -/
inductive PKind
  | base
  | llm (provider : String) (model_resolved : String)
  deriving DecidableEq

/-- `Player` / `LLMAgent` instance state. -/
structure Player where
  player_id : String
  name : String
  player_type : String
  bank : ℚ
  personality : String
  strategy : String
  history : List String
  kind : PKind
  deriving DecidableEq

/-- One entry of `current_game_log` as built by `_log_completed_round`. -/
structure LogEntry where
  game_id : String
  round : Int
  player_id : String
  player_name : String
  player_type : String
  decision : ℚ
  payoff : ℚ
  contribution : String
  statement : String
  thinking : String
  deriving DecidableEq

/-- `last_investment_results` ({"decisions": .., "payoffs": .., "explanations": ..}). -/
structure InvResults where
  decisions : Dict ℚ
  payoffs : Dict ℚ
  explanations : Dict String
  deriving DecidableEq

/-- `Game` instance state. -/
structure Game where
  game_id : String
  timestamp : String
  num_rounds : Int
  multiplier : ℚ
  current_round : Int
  investment_limit : ℚ
  players : List Player
  current_game_log : List LogEntry
  game_earnings : Dict ℚ
  last_discussion : Dict String
  last_investment_results : Option InvResults
  phase : Phase
  deriving DecidableEq

/-- Python `a or b` on an optional string (None and "" are falsy). -/
def orDefault : Option String → String → String
  | some s, d => if s = "" then d else s
  | none, d => d

/-- `Game.__init__`: `nowTs` stands for `datetime.now().strftime(..)`. -/
def Game.init (gid : String) (tsArg : Option String) (nowTs : String)
    (ps : List Player) (n : Int) (mult : ℚ) : Game :=
  { game_id := gid
    timestamp := orDefault tsArg nowTs
    num_rounds := n
    multiplier := mult
    current_round := 0
    investment_limit := 5
    players := ps
    current_game_log := []
    game_earnings := ps.foldl (fun m p => dinsert p.player_id 0 m) []
    last_discussion := []
    last_investment_results := none
    phase := Phase.INVESTMENT }

/-- Python `s.startswith(pre)`. -/
def pyStartsWith (s pre : String) : Bool := pre.data.isPrefixOf s.data

/-- Upper-casing of one character (ASCII, which covers the tag being matched). -/
def charUpper (c : Char) : Char :=
  if 97 ≤ c.toNat ∧ c.toNat ≤ 122 then Char.ofNat (c.toNat - 32) else c

/-- Python `s.upper()`. -/
def pyUpper (s : String) : String := ⟨s.data.map charUpper⟩

/-- Lower-casing of one character (ASCII, which covers the provider names). -/
def charLower (c : Char) : Char :=
  if 65 ≤ c.toNat ∧ c.toNat ≤ 90 then Char.ofNat (c.toNat + 32) else c

/-- Python `s.lower()`. -/
def pyLower (s : String) : String := ⟨s.data.map charLower⟩

/-- Python `s.strip()`: drop leading and trailing whitespace. -/
def pyStrip (s : String) : String :=
  ⟨(((s.data.dropWhile Char.isWhitespace).reverse.dropWhile Char.isWhitespace).reverse)⟩

/-- Replace every non-overlapping occurrence of `pat`, scanning left to
    right and resuming after each replacement; the fuel (initially the
    string length, consumed at least one character per step) only makes the
    recursion structural.  (A nonempty `pat` is assumed, as at the call
    site.) -/
def replaceChars (pat rep : List Char) : Nat → List Char → List Char
  | _, [] => []
  | 0, l => l
  | fuel + 1, c :: rest =>
      if pat ≠ [] ∧ pat.isPrefixOf (c :: rest) then
        rep ++ replaceChars pat rep fuel ((c :: rest).drop pat.length)
      else c :: replaceChars pat rep fuel rest

/-- Python `s.replace(pat, rep)`. -/
def pyReplace (s pat rep : String) : String :=
  ⟨replaceChars pat.data rep.data s.data.length s.data⟩

/-- Round-half-to-even on an exact rational, as Python `round` does. -/
def roundHalfEven (q : ℚ) : Int :=
  let f := ⌊q⌋
  let r := q - f
  if r < 1 / 2 then f
  else if 1 / 2 < r then f + 1
  else if f % 2 = 0 then f else f + 1

/-- Python `round(x, 2)`. -/
def pyRound2 (q : ℚ) : ℚ := (roundHalfEven (q * 100) : ℚ) / 100

/-- `response_text.upper().replace("INVESTMENT:", "").strip()`. -/
def stripTagUpper (t : String) : String := pyStrip (pyReplace (pyUpper t) "INVESTMENT:" "")

/-- `LLMAgent.make_decision`, as a function of the API call outcome
    (`Except.error e` = the call raised `e`) and of the numeric conversion
    `int(float(s))` (`none` = that conversion raised, caught by the same
    `except` clause). -/
def makeDecision (apiResult : Except String String) (parseNum : String → Option Int) :
    Int × String :=
  match apiResult with
  | Except.error e => (0, "API Error: " ++ e)
  | Except.ok raw =>
      let t := pyStrip raw
      if pyStartsWith (pyUpper t) "INVESTMENT:" then
        match parseNum (stripTagUpper t) with
        | some n => (max 0 (min 5 n), t)
        | none => (0, "API Error: could not convert string to float: " ++ stripTagUpper t)
      else (0, t)

/-- `LLMAgent.make_statement`, as a function of the API call outcome. -/
def makeStatement (apiResult : Except String String) : String :=
  match apiResult with
  | Except.ok raw => pyStrip raw
  | Except.error _ => "..."

/-- `Game._calculate_payoffs`, over the only game state it reads:
    `investment_limit`, `multiplier`, `len(players)`. -/
def calcPayoffsCore (limit mult : ℚ) (numPlayers : Nat) (decisions : Dict ℚ) : Dict ℚ :=
  let total := sumValues decisions
  let pot := total * mult
  let share := if numPlayers = 0 then 0 else pot / (numPlayers : ℚ)
  decisions.map (fun kv => (kv.1, (limit - kv.2) + share))

/-- `Game._calculate_payoffs` as a method. -/
def Game.calculate_payoffs (g : Game) (decisions : Dict ℚ) : Dict ℚ :=
  calcPayoffsCore g.investment_limit g.multiplier g.players.length decisions

/-- `Game.get_human_player`: first player whose name starts with "Human_". -/
def Game.get_human_player (g : Game) : Option Player :=
  g.players.find? (fun p => pyStartsWith p.name "Human_")

/-- The `continue` guard of the investment loop: skip the player whose id
    equals the designated human's id. -/
def skipsAs (h : Option Player) (p : Player) : Bool :=
  match h with
  | some hp => p.player_id == hp.player_id
  | none => false

/-- One player's resolved decision and explanation inside the investment
    loop: an `LLMAgent` goes through `make_decision`, any other player gets
    the placeholder. -/
def decideFor (api : Player → Except String String) (parseNum : String → Option Int)
    (p : Player) : ℚ × String :=
  match p.kind with
  | PKind.llm _ _ =>
      let r := makeDecision (api p) parseNum
      ((r.1 : ℚ), r.2)
  | PKind.base => (0, "Default NPC behavior")

/-- `Game.process_investment_round`.  `api` is the external LLM call per
    player, `parseNum` the numeric conversion, `human_decision` the
    optional override. -/
def Game.process_investment_round (g : Game) (api : Player → Except String String)
    (parseNum : String → Option Int) (human_decision : Option ℚ) : Game :=
  let hp := g.get_human_player
  let dm := g.players.foldl
    (fun (acc : Dict ℚ × Dict String) p =>
      if skipsAs hp p then acc
      else
        let r := decideFor api parseNum p
        (dinsert p.player_id r.1 acc.1, dinsert p.player_id r.2 acc.2))
    ([], [])
  let dm2 := match hp, human_decision with
    | some h, some d => (dinsert h.player_id d dm.1, dinsert h.player_id "Human decision" dm.2)
    | _, _ => dm
  let payoffs := g.calculate_payoffs dm2.1
  { g with
    current_round := g.current_round + 1
    last_investment_results := some
      { decisions := dm2.1, payoffs := payoffs, explanations := dm2.2 }
    phase := Phase.DISCUSSION }

/-- `player.player_id != (human_player and human_player.player_id)`:
    with no designated human the comparison is against None, hence true. -/
def designatedNe (h : Option Player) (p : Player) : Bool :=
  match h with
  | some hp => p.player_id != hp.player_id
  | none => true

/-- The statements dict built by `Game.process_discussion_round` before
    logging: the optional human override first, then the loop over players. -/
def Game.statements_for (g : Game) (api : Player → Except String String)
    (human_statement : Option String) : Dict String :=
  let hp := g.get_human_player
  let st0 : Dict String := match hp, human_statement with
    | some h, some s => dinsert h.player_id s []
    | _, _ => []
  g.players.foldl
    (fun st p =>
      match p.kind with
      | PKind.llm _ _ => dinsert p.player_id (makeStatement (api p)) st
      | PKind.base =>
          if p.player_type == "human" && designatedNe hp p then dinsert p.player_id "..." st
          else st)
    st0

/-- `last_investment_results` with the empty-dict defaults of the
    `.get(..., {})` calls in `_log_completed_round`. -/
def invResultsOf (g : Game) : InvResults :=
  (g.last_investment_results).getD { decisions := [], payoffs := [], explanations := [] }

/-- One player's log entry in `_log_completed_round`. -/
def mkLogEntry (gid : String) (roundNo : Int) (avg : ℚ) (dec pay : Dict ℚ)
    (expl stmts : Dict String) (p : Player) : LogEntry :=
  let d := dget dec p.player_id 0
  let po := dget pay p.player_id 0
  { game_id := gid
    round := roundNo
    player_id := p.player_id
    player_name := p.name
    player_type := match p.kind with
      | PKind.llm _ _ => p.personality
      | PKind.base => p.player_type
    decision := d
    payoff := pyRound2 po
    contribution := if avg < d then "more" else if d < avg then "less" else "same"
    statement := dget stmts p.player_id "N/A"
    thinking := dget expl p.player_id "N/A" }

/-- `player.bank += payoffs.get(player.player_id, 0)`. -/
def bankAdd (pay : Dict ℚ) (p : Player) : Player :=
  { p with bank := p.bank + dget pay p.player_id 0 }

/-- `Game._log_completed_round`.  The single Python loop touches three
    independent pieces of state per player (that player's bank, that
    player's earnings key, the entry list); it is rendered as one traversal
    per piece, which yields the same state. -/
def Game.log_completed_round (g : Game) (stmts : Dict String) : Game :=
  let r := invResultsOf g
  let avg := if r.decisions.length = 0 then 0
             else sumValues r.decisions / (r.decisions.length : ℚ)
  let entries := g.players.map
    (mkLogEntry g.game_id g.current_round avg r.decisions r.payoffs r.explanations stmts)
  let earnings := g.players.foldl
    (fun e p => dadjust p.player_id (fun v => v + dget r.payoffs p.player_id 0) e)
    g.game_earnings
  { g with
    players := g.players.map (bankAdd r.payoffs)
    game_earnings := earnings
    current_game_log := g.current_game_log ++ entries }

/-- `Game.process_discussion_round` (the CSV export is an external side
    effect outside the state). -/
def Game.process_discussion_round (g : Game) (api : Player → Except String String)
    (human_statement : Option String) : Game :=
  let stmts := g.statements_for api human_statement
  let g1 := { g with last_discussion := stmts }
  let g2 := g1.log_completed_round stmts
  if g2.num_rounds ≤ g2.current_round then { g2 with phase := Phase.GAMEOVER }
  else { g2 with phase := Phase.INVESTMENT }

/-- Serialized form of a `Player` (`Player.to_dict` / `LLMAgent.to_dict`):
    the provider/model keys exist only for an `LLMAgent`. -/
structure PlayerDict where
  player_id : String
  name : String
  player_type : String
  bank : ℚ
  personality : String
  strategy : String
  provider : Option String
  model_entry : Option (Option String)
  deriving DecidableEq

/-- `Player.to_dict` / `LLMAgent.to_dict`. -/
def playerToDict (p : Player) : PlayerDict :=
  { player_id := p.player_id
    name := p.name
    player_type := p.player_type
    bank := p.bank
    personality := p.personality
    strategy := p.strategy
    provider := match p.kind with
      | PKind.base => none
      | PKind.llm prov _ => some prov
    model_entry := match p.kind with
      | PKind.base => none
      | PKind.llm _ m => some (some m) }

/-- Python truthiness of an API key value (None and "" are falsy). -/
def keyOk : Option String → Bool
  | none => false
  | some s => s != ""

/-- `self.model_name = self.model_name or default`. -/
def resolveModel (m : Option String) (dflt : String) : String :=
  match m with
  | some s => if s = "" then dflt else s
  | none => dflt

/-- `LLMAgent._initialize_client` over the environment keys `gk`/`okey`/`ak`
    (MY_GEMINI_API_KEY, MY_OPENAI_API_KEY, MY_ANTHROPIC_API_KEY): returns
    the provider and resolved model name, or the raised ValueError message. -/
def clientInit (gk okey ak : Option String) (prov : String) (m : Option String) :
    Except String (String × String) :=
  if prov = "gemini" then
    if keyOk gk then Except.ok (prov, resolveModel m "gemini-2.5-pro-latest")
    else Except.error "Gemini API key is not configured."
  else if prov = "openai" then
    if keyOk okey then Except.ok (prov, resolveModel m "gpt-4o")
    else Except.error "OpenAI API key is not configured."
  else if prov = "anthropic" then
    if keyOk ak then Except.ok (prov, resolveModel m "claude-3-opus-20240229")
    else Except.error "Anthropic API key is not configured."
  else Except.error ("Unsupported provider: " ++ prov ++ ".")

/-- `LLMAgent.__init__` (lowercases the provider, then `_initialize_client`). -/
def llmAgentInit (gk okey ak : Option String) (nm ptype : String) (bank : ℚ)
    (pers strat : String) (hist : List String) (pid : String) (prov : String)
    (m : Option String) : Except String Player :=
  match clientInit gk okey ak (pyLower prov) m with
  | Except.ok r => Except.ok
      { player_id := pid
        name := nm
        player_type := ptype
        bank := bank
        personality := pers
        strategy := strat
        history := hist
        kind := PKind.llm r.1 r.2 }
  | Except.error e => Except.error e

/-- `Player.from_dict`: routes on the 'ai_llm' type tag; a non-'ai_llm' dict
    carrying provider/model keys would make `Player(**data)` raise TypeError
    (`none`); an LLMAgent construction failure also propagates (`none`). -/
def playerFromDict (gk okey ak : Option String) (d : PlayerDict) : Option Player :=
  if d.player_type = "ai_llm" then
    match llmAgentInit gk okey ak d.name d.player_type d.bank d.personality d.strategy []
        d.player_id (d.provider.getD "gemini") (d.model_entry.getD none) with
    | Except.ok p => some p
    | Except.error _ => none
  else
    match d.provider, d.model_entry with
    | none, none =>
        some { player_id := d.player_id
               name := d.name
               player_type := d.player_type
               bank := d.bank
               personality := d.personality
               strategy := d.strategy
               history := []
               kind := PKind.base }
    | _, _ => none

/-- Serialized form of a `Game` (`Game.to_dict`). -/
structure GameDict where
  game_id : String
  timestamp : String
  num_rounds : Int
  multiplier : ℚ
  current_round : Int
  investment_limit : ℚ
  players : List PlayerDict
  current_game_log : List LogEntry
  game_earnings : Dict ℚ
  last_discussion : Dict String
  last_investment_results : Option InvResults
  phase : Phase
  deriving DecidableEq

/-- `Game.to_dict`. -/
def Game.to_dict (g : Game) : GameDict :=
  { game_id := g.game_id
    timestamp := g.timestamp
    num_rounds := g.num_rounds
    multiplier := g.multiplier
    current_round := g.current_round
    investment_limit := g.investment_limit
    players := g.players.map playerToDict
    current_game_log := g.current_game_log
    game_earnings := g.game_earnings
    last_discussion := g.last_discussion
    last_investment_results := g.last_investment_results
    phase := g.phase }

/-- The list comprehension `[Player.from_dict(p) for p in data['players']]`:
    the first construction failure propagates. -/
def playersFromDicts (gk okey ak : Option String) : List PlayerDict → Option (List Player)
  | [] => some []
  | d :: rest =>
      match playerFromDict gk okey ak d, playersFromDicts gk okey ak rest with
      | some p, some ps => some (p :: ps)
      | _, _ => none

/-- `Game.from_dict`: rebuilds the players (re-running adapter
    initialization, which may raise, hence `Option`), calls the constructor,
    then restores the mutable fields from the dict. -/
def Game.from_dict (gk okey ak : Option String) (nowTs : String) (d : GameDict) :
    Option Game :=
  match playersFromDicts gk okey ak d.players with
  | none => none
  | some ps =>
      let g0 := Game.init d.game_id (some d.timestamp) nowTs ps d.num_rounds d.multiplier
      some { g0 with
        current_round := d.current_round
        current_game_log := d.current_game_log
        game_earnings := d.game_earnings
        last_discussion := d.last_discussion
        last_investment_results := d.last_investment_results
        phase := d.phase }

/-- One call of either phase method, with arbitrary oracle behavior. -/
inductive GameStep : Game → Game → Prop
  | invest (g : Game) (api : Player → Except String String)
      (parseNum : String → Option Int) (hd : Option ℚ) :
      GameStep g (g.process_investment_round api parseNum hd)
  | discuss (g : Game) (api : Player → Except String String) (hs : Option String) :
      GameStep g (g.process_discussion_round api hs)

/-- States reachable by arbitrary sequences of phase-method calls. -/
inductive GameReachable : Game → Game → Prop
  | refl (g : Game) : GameReachable g g
  | tail {g g' g'' : Game} : GameReachable g g' → GameStep g' g'' → GameReachable g g''

/-- One phase-method call made in the phase that expects it (as every
    caller in app.py does: each route checks `game.phase` first). -/
inductive GuardedStep : Game → Game → Prop
  | invest (g : Game) (api : Player → Except String String)
      (parseNum : String → Option Int) (hd : Option ℚ) :
      g.phase = Phase.INVESTMENT →
      GuardedStep g (g.process_investment_round api parseNum hd)
  | discuss (g : Game) (api : Player → Except String String) (hs : Option String) :
      g.phase = Phase.DISCUSSION →
      GuardedStep g (g.process_discussion_round api hs)

/-- States reachable by phase-respecting call sequences. -/
inductive GuardedReachable : Game → Game → Prop
  | refl (g : Game) : GuardedReachable g g
  | tail {g g' g'' : Game} :
      GuardedReachable g g' → GuardedStep g' g'' → GuardedReachable g g''

/-- The payoffs dict that `_log_completed_round` reads. -/
def payoffsRead (g : Game) : Dict ℚ := (invResultsOf g).payoffs

/-- Reachability annotated with the trace of payoff dicts applied by the
    successive `_log_completed_round` calls. -/
inductive ReachTrace : Game → List (Dict ℚ) → Game → Prop
  | refl (g : Game) : ReachTrace g [] g
  | invest {g g' : Game} {tr : List (Dict ℚ)} (api : Player → Except String String)
      (parseNum : String → Option Int) (hd : Option ℚ) :
      ReachTrace g tr g' →
      ReachTrace g tr (g'.process_investment_round api parseNum hd)
  | discuss {g g' : Game} {tr : List (Dict ℚ)} (api : Player → Except String String)
      (hs : Option String) :
      ReachTrace g tr g' →
      ReachTrace g (tr ++ [payoffsRead g']) (g'.process_discussion_round api hs)

/-- Sum of the payoffs recorded for one player id along a trace. -/
def traceSum (tr : List (Dict ℚ)) (pid : String) : ℚ :=
  (tr.map (fun m => dget m pid 0)).sum

/-- A non-LLM player record (kind tag as given, default persona fields). -/
def basePlayer (pid nm ptype : String) (bank : ℚ) : Player :=
  { player_id := pid, name := nm, player_type := ptype, bank := bank,
    personality := "N/A", strategy := "N/A", history := [], kind := PKind.base }

/-- An LLMAgent record as app.py builds them (type tag 'ai_llm'). -/
def llmPlayer (pid nm : String) (bank : ℚ) (prov mdl : String) : Player :=
  { player_id := pid, name := nm, player_type := "ai_llm", bank := bank,
    personality := "Analyst", strategy := "Cooperate", history := [], kind := PKind.llm prov mdl }

/-- Whether an Except value is a success. -/
def exceptIsOk {ε α : Type} : Except ε α → Bool
  | Except.ok _ => true
  | Except.error _ => false

/-- Class test `isinstance(p, LLMAgent)`. -/
def isLLM (p : Player) : Bool :=
  match p.kind with
  | PKind.llm _ _ => true
  | PKind.base => false

/-- Well-formedness of a player for serialization: the 'ai_llm' type tag
    coincides with the LLMAgent class (true of every player the application
    constructs), and an LLMAgent's stored provider re-initializes
    successfully under the ambient keys (true in the environment that
    constructed it in the first place). -/
def playerWF (gk okey ak : Option String) (p : Player) : Bool :=
  match p.kind with
  | PKind.base => p.player_type != "ai_llm"
  | PKind.llm prov mdl =>
      (p.player_type == "ai_llm") && exceptIsOk (clientInit gk okey ak (pyLower prov) (some mdl))

/-- An external decision source whose every call raises. -/
def wApi : Player → Except String String := fun _ => Except.error "down"

/-- A numeric conversion whose every call raises. -/
def wParse : String → Option Int := fun _ => none

/-- Three plain players, the scenario of spec section 8. -/
def wG1 : Game := Game.init "G1" (some "t") "t"
  [basePlayer "A" "Alice" "human" 100, basePlayer "B" "Ben" "human" 100,
   basePlayer "C" "Cal" "human" 100] 10 (3 / 2)

/-- The decisions map of the spec section 8 scenario. -/
def wDec1 : Dict ℚ := [("A", 0), ("B", 5), ("C", 5)]

/-- A two-player game with a designated human and one NPC. -/
def wG2 : Game := Game.init "G2" (some "t") "t"
  [basePlayer "H" "Human_1" "human" 100, basePlayer "B" "Bob" "human" 100] 10 (3 / 2)

/-- A game with an empty player list. -/
def wG9 : Game := Game.init "G9" (some "t") "t" [] 10 (3 / 2)

/-- A one-round game with no players. -/
def wG3 : Game := Game.init "G3" (some "t") "t" [] 1 2

/-- Three unguarded calls on `wG3`: invest, discuss, then invest again on
    the finished game. -/
def wG3b : Game :=
  ((wG3.process_investment_round wApi wParse none).process_discussion_round wApi
    none).process_investment_round wApi wParse none

/-- The guarded one-round run of `wG3` to completion. -/
def wG3g : Game :=
  (wG3.process_investment_round wApi wParse none).process_discussion_round wApi none

/-- A finished (GAMEOVER) one-round game. -/
def wG4 : Game :=
  { Game.init "G4" (some "t") "t" [] 1 2 with current_round := 1, phase := Phase.GAMEOVER }

/-- A mixed game (one plain player, one LLM agent) for the round trip. -/
def wG5 : Game := Game.init "G5" (some "t") "t"
  [basePlayer "B" "Bo" "human" 100, llmPlayer "L" "Ana" 100 "gemini" "m"] 2 2

/-- A single plain player for the ledger claims. -/
def wP6 : Player := basePlayer "A" "Amy" "human" 100

/-- A one-round one-player game. -/
def wG6 : Game := Game.init "G6" (some "t") "t" [wP6] 1 2

/-- Its investment phase under an always-raising source. -/
def wG6a : Game := wG6.process_investment_round wApi wParse none

/-- Its discussion phase, which performs the round logging. -/
def wG6b : Game := wG6a.process_discussion_round wApi none

/-- An all-LLM game (one agent, no Human_-prefixed name). -/
def wG7 : Game := Game.init "G7" (some "t") "t" [llmPlayer "L1" "Ana" 100 "gemini" "m"] 1 2

/-- A game with a designated human (name prefix Human_), a human-KIND
    player without the prefix, and an LLM agent. -/
def wG10 : Game := Game.init "GX" (some "t") "t"
  [basePlayer "H" "Human_1" "human" 100, basePlayer "N" "Nick" "human" 100,
   llmPlayer "L" "Ana" 100 "gemini" "m"] 2 2

/- ---------------- dictionary lemmas ---------------- -/

theorem dlookup_dinsert_self {α : Type} (k : String) (v : α) (m : Dict α) :
    dlookup k (dinsert k v m) = some v := by
  induction m with
  | nil => simp [dinsert, dlookup]
  | cons h t ih =>
      obtain ⟨k', v'⟩ := h
      by_cases hk : k' = k
      · simp [dinsert, hk, dlookup]
      · simp [dinsert, hk, dlookup, ih]

theorem dlookup_dinsert_ne {α : Type} {k k' : String} (h : k' ≠ k) (v : α) (m : Dict α) :
    dlookup k (dinsert k' v m) = dlookup k m := by
  induction m with
  | nil => simp [dinsert, dlookup, h]
  | cons hd t ih =>
      obtain ⟨k'', v''⟩ := hd
      by_cases hk : k'' = k'
      · subst hk
        simp [dinsert, dlookup, h, ih]
      · simp [dinsert, hk, dlookup, ih]

theorem dinsert_of_not_mem {α : Type} {k : String} {m : Dict α} (h : k ∉ dkeys m) (v : α) :
    dinsert k v m = m ++ [(k, v)] := by
  induction m with
  | nil => simp [dinsert]
  | cons hd t ih =>
      obtain ⟨k', v'⟩ := hd
      simp only [dkeys, List.map_cons, List.mem_cons] at h
      push_neg at h
      simp [dinsert, Ne.symm h.1, ih h.2]

theorem dkeys_dadjust {α : Type} (k : String) (f : α → α) (m : Dict α) :
    dkeys (dadjust k f m) = dkeys m := by
  induction m with
  | nil => simp [dadjust]
  | cons hd t ih =>
      obtain ⟨k', v⟩ := hd
      by_cases hk : k' = k
      · simp [dadjust, hk, dkeys]
      · simp only [dadjust, hk, if_false]
        simp [dkeys] at ih ⊢
        exact ih

theorem dlookup_dadjust_self {α : Type} (k : String) (f : α → α) (m : Dict α) :
    dlookup k (dadjust k f m) = (dlookup k m).map f := by
  induction m with
  | nil => simp [dadjust, dlookup]
  | cons hd t ih =>
      obtain ⟨k', v⟩ := hd
      by_cases hk : k' = k
      · simp [dadjust, hk, dlookup]
      · simp [dadjust, hk, dlookup, ih]

theorem dlookup_dadjust_ne {α : Type} {k k' : String} (h : k' ≠ k) (f : α → α) (m : Dict α) :
    dlookup k (dadjust k' f m) = dlookup k m := by
  induction m with
  | nil => simp [dadjust]
  | cons hd t ih =>
      obtain ⟨k'', v⟩ := hd
      by_cases hk : k'' = k'
      · subst hk
        simp [dadjust, dlookup, h, ih]
      · simp [dadjust, hk, dlookup, ih]

theorem dlookup_append {α : Type} (k : String) (m m' : Dict α) :
    dlookup k (m ++ m') =
      match dlookup k m with
      | some v => some v
      | none => dlookup k m' := by
  induction m with
  | nil => simp [dlookup]
  | cons hd t ih =>
      obtain ⟨k', v⟩ := hd
      by_cases hk : k' = k
      · simp [dlookup, hk]
      · simp [dlookup, hk, ih]

theorem dlookup_eq_none_of_not_mem {α : Type} {k : String} {m : Dict α}
    (h : k ∉ dkeys m) : dlookup k m = none := by
  induction m with
  | nil => simp [dlookup]
  | cons hd t ih =>
      obtain ⟨k', v⟩ := hd
      simp only [dkeys, List.map_cons, List.mem_cons] at h
      push_neg at h
      simp [dlookup, Ne.symm h.1, ih h.2]

theorem dlookup_map_pairs {α : Type} (f : Player → α) (k : String) (ps : List Player) :
    dlookup k (ps.map (fun p => (p.player_id, f p))) =
      (ps.find? (fun p => p.player_id == k)).map f := by
  induction ps with
  | nil => simp [dlookup]
  | cons p t ih =>
      by_cases hk : p.player_id = k
      · simp [dlookup, List.find?, hk]
      · simp only [List.map_cons, dlookup, hk, if_false, List.find?]
        have : (p.player_id == k) = false := by
          simp [hk]
        simp [this, ih]

/- ---------------- field effects of the phase methods ---------------- -/

theorem invest_phase (g : Game) (api : Player → Except String String)
    (parseNum : String → Option Int) (hd : Option ℚ) :
    (g.process_investment_round api parseNum hd).phase = Phase.DISCUSSION := rfl

theorem invest_current_round (g : Game) (api : Player → Except String String)
    (parseNum : String → Option Int) (hd : Option ℚ) :
    (g.process_investment_round api parseNum hd).current_round = g.current_round + 1 := rfl

theorem invest_num_rounds (g : Game) (api : Player → Except String String)
    (parseNum : String → Option Int) (hd : Option ℚ) :
    (g.process_investment_round api parseNum hd).num_rounds = g.num_rounds := rfl

theorem invest_players (g : Game) (api : Player → Except String String)
    (parseNum : String → Option Int) (hd : Option ℚ) :
    (g.process_investment_round api parseNum hd).players = g.players := rfl

theorem invest_game_earnings (g : Game) (api : Player → Except String String)
    (parseNum : String → Option Int) (hd : Option ℚ) :
    (g.process_investment_round api parseNum hd).game_earnings = g.game_earnings := rfl

theorem invest_log (g : Game) (api : Player → Except String String)
    (parseNum : String → Option Int) (hd : Option ℚ) :
    (g.process_investment_round api parseNum hd).current_game_log = g.current_game_log := rfl

theorem log_round_current_round (g : Game) (stmts : Dict String) :
    (g.log_completed_round stmts).current_round = g.current_round := rfl

theorem log_round_num_rounds (g : Game) (stmts : Dict String) :
    (g.log_completed_round stmts).num_rounds = g.num_rounds := rfl

theorem log_round_players (g : Game) (stmts : Dict String) :
    (g.log_completed_round stmts).players = g.players.map (bankAdd (payoffsRead g)) := rfl

theorem log_round_earnings (g : Game) (stmts : Dict String) :
    (g.log_completed_round stmts).game_earnings =
      g.players.foldl
        (fun e p => dadjust p.player_id (fun v => v + dget (payoffsRead g) p.player_id 0) e)
        g.game_earnings := rfl

theorem discuss_current_round (g : Game) (api : Player → Except String String)
    (hs : Option String) :
    (g.process_discussion_round api hs).current_round = g.current_round := by
  simp only [Game.process_discussion_round]
  rw [apply_ite Game.current_round]
  simp [Game.log_completed_round]

theorem discuss_num_rounds (g : Game) (api : Player → Except String String)
    (hs : Option String) :
    (g.process_discussion_round api hs).num_rounds = g.num_rounds := by
  simp only [Game.process_discussion_round]
  rw [apply_ite Game.num_rounds]
  simp [Game.log_completed_round]

theorem discuss_phase (g : Game) (api : Player → Except String String)
    (hs : Option String) :
    (g.process_discussion_round api hs).phase =
      if g.num_rounds ≤ g.current_round then Phase.GAMEOVER else Phase.INVESTMENT := by
  simp only [Game.process_discussion_round]
  rw [apply_ite Game.phase]
  simp [Game.log_completed_round]

theorem discuss_players (g : Game) (api : Player → Except String String)
    (hs : Option String) :
    (g.process_discussion_round api hs).players = g.players.map (bankAdd (payoffsRead g)) := by
  simp only [Game.process_discussion_round]
  rw [apply_ite Game.players]
  simp [Game.log_completed_round, payoffsRead, invResultsOf]

theorem discuss_earnings (g : Game) (api : Player → Except String String)
    (hs : Option String) :
    (g.process_discussion_round api hs).game_earnings =
      g.players.foldl
        (fun e p => dadjust p.player_id (fun v => v + dget (payoffsRead g) p.player_id 0) e)
        g.game_earnings := by
  simp only [Game.process_discussion_round]
  rw [apply_ite Game.game_earnings]
  simp [Game.log_completed_round, payoffsRead, invResultsOf]

theorem discuss_log (g : Game) (api : Player → Except String String)
    (hs : Option String) :
    (g.process_discussion_round api hs).current_game_log =
      g.current_game_log ++ g.players.map
        (mkLogEntry g.game_id g.current_round
           (if (invResultsOf g).decisions.length = 0 then 0
            else sumValues (invResultsOf g).decisions / ((invResultsOf g).decisions.length : ℚ))
           (invResultsOf g).decisions (invResultsOf g).payoffs (invResultsOf g).explanations
           (g.statements_for api hs)) := by
  simp only [Game.process_discussion_round]
  rw [apply_ite Game.current_game_log]
  simp [Game.log_completed_round, invResultsOf]

/- ---------------- fold characterizations ---------------- -/

theorem foldl_pair_split {α β : Type} (fa : α → Player → α) (fb : β → Player → β)
    (sk : Player → Bool) (ps : List Player) (a : α) (b : β) :
    ps.foldl (fun acc p => if sk p then acc else (fa acc.1 p, fb acc.2 p)) (a, b) =
      (ps.foldl (fun x p => if sk p then x else fa x p) a,
       ps.foldl (fun x p => if sk p then x else fb x p) b) := by
  induction ps generalizing a b with
  | nil => rfl
  | cons p t ih =>
      by_cases hsk : sk p
      · simp [hsk, ih]
      · simp [hsk, ih]

theorem foldl_dinsert_skip {α : Type} (f : Player → α) (sk : Player → Bool)
    (ps : List Player) (acc : Dict α)
    (hnd : (ps.map Player.player_id).Nodup)
    (hdisj : ∀ p ∈ ps, p.player_id ∉ dkeys acc) :
    ps.foldl (fun x p => if sk p then x else dinsert p.player_id (f p) x) acc =
      acc ++ (ps.filter (fun p => !sk p)).map (fun p => (p.player_id, f p)) := by
  induction ps generalizing acc with
  | nil => simp
  | cons p t ih =>
      simp only [List.map_cons, List.nodup_cons] at hnd
      by_cases hsk : sk p
      · rw [List.foldl_cons, if_pos hsk, List.filter_cons_of_neg (by simp [hsk])]
        exact ih acc hnd.2 (fun q hq => hdisj q (List.mem_cons_of_mem p hq))
      · have hfresh : p.player_id ∉ dkeys acc := hdisj p (List.mem_cons_self p t)
        rw [List.foldl_cons, if_neg hsk, dinsert_of_not_mem hfresh,
          List.filter_cons_of_pos (by simp [hsk])]
        have hdisj' : ∀ q ∈ t, q.player_id ∉ dkeys (acc ++ [(p.player_id, f p)]) := by
          intro q hq
          have h1 : q.player_id ∉ dkeys acc := hdisj q (List.mem_cons_of_mem p hq)
          have h2 : q.player_id ≠ p.player_id := by
            intro he
            exact hnd.1 (he ▸ List.mem_map_of_mem Player.player_id hq)
          simp only [dkeys, List.map_append, List.mem_append, List.map_cons, List.map_nil,
            List.mem_singleton]
          rintro (ha | hb)
          · exact h1 ha
          · exact h2 hb
        rw [ih (acc ++ [(p.player_id, f p)]) hnd.2 hdisj']
        simp

theorem dlookup_foldl_dadjust (pay : Dict ℚ) (ps : List Player) (e : Dict ℚ) (k : String)
    (hnd : (ps.map Player.player_id).Nodup) :
    dlookup k
        (ps.foldl (fun e' p => dadjust p.player_id (fun v => v + dget pay p.player_id 0) e') e) =
      if k ∈ ps.map Player.player_id then (dlookup k e).map (fun v => v + dget pay k 0)
      else dlookup k e := by
  induction ps generalizing e with
  | nil => simp
  | cons p t ih =>
      simp only [List.map_cons, List.nodup_cons] at hnd
      by_cases hk : p.player_id = k
      · have hnk : k ∉ t.map Player.player_id := hk ▸ hnd.1
        simp only [List.foldl_cons, ih _ hnd.2, hnk, if_false]
        subst hk
        simp [dlookup_dadjust_self, List.mem_cons]
      · have hne : k ≠ p.player_id := fun h => hk h.symm
        simp only [List.foldl_cons, dlookup_dadjust_ne hk, ih _ hnd.2, List.map_cons,
          List.mem_cons, hne, false_or]

theorem sumValues_map_shift (limit s : ℚ) (m : Dict ℚ) :
    sumValues (m.map fun kv => (kv.1, (limit - kv.2) + s)) =
      (m.map fun kv => limit - kv.2).sum + m.length * s := by
  induction m with
  | nil => simp [sumValues]
  | cons kv t ih =>
      simp only [List.map_cons, sumValues, List.sum_cons, List.length_cons] at ih ⊢
      rw [ih]
      push_cast
      ring

/- ---------------- claims about the payoff engine ---------------- -/

theorem dkeys_map_keep {α β : Type} (m : Dict α) (f : String × α → β) :
    dkeys (m.map fun kv => (kv.1, f kv)) = dkeys m := by
  induction m with
  | nil => rfl
  | cons kv t ih =>
      simp only [dkeys, List.map_cons] at ih ⊢
      rw [ih]

/-- C1: on a game with a non-empty player list, `_calculate_payoffs` returns
a dict with exactly the keys of the decisions dict, each participant's
payoff being `(investment_limit - decision) + sum(decisions) * multiplier /
len(players)`; being a pure function of `investment_limit`, `multiplier` and
`len(players)` only, it reads and writes no other game state. -/
theorem claim_C1_payoff_formula (g : Game) (decisions : Dict ℚ) (h : g.players ≠ []) :
    g.calculate_payoffs decisions =
      decisions.map (fun kv =>
        (kv.1, (g.investment_limit - kv.2) +
          sumValues decisions * g.multiplier / (g.players.length : ℚ))) ∧
    dkeys (g.calculate_payoffs decisions) = dkeys decisions ∧
    ∀ g' : Game, g'.investment_limit = g.investment_limit →
      g'.multiplier = g.multiplier → g'.players.length = g.players.length →
      g'.calculate_payoffs decisions = g.calculate_payoffs decisions := by
  have hn : g.players.length ≠ 0 := fun hh => h (List.length_eq_zero.mp hh)
  refine ⟨?_, ?_, ?_⟩
  · simp [Game.calculate_payoffs, calcPayoffsCore, hn]
  · exact dkeys_map_keep decisions _
  · intro g' h1 h2 h3
    simp [Game.calculate_payoffs, h1, h2, h3]

theorem claim_C1_witness :
    wG1.players ≠ [] ∧
    (wG1.calculate_payoffs wDec1 =
        wDec1.map (fun kv =>
          (kv.1, (wG1.investment_limit - kv.2) +
            sumValues wDec1 * wG1.multiplier / (wG1.players.length : ℚ))) ∧
      dkeys (wG1.calculate_payoffs wDec1) = dkeys wDec1 ∧
      ∀ g' : Game, g'.investment_limit = wG1.investment_limit →
        g'.multiplier = wG1.multiplier → g'.players.length = wG1.players.length →
        g'.calculate_payoffs wDec1 = wG1.calculate_payoffs wDec1) :=
  ⟨by decide, claim_C1_payoff_formula wG1 wDec1 (by decide)⟩

/-- C9: with an empty player list `_calculate_payoffs` is still total: the
guard takes the pot share to be 0 (no division by zero is performed) and the
result maps every key of the decisions dict to `investment_limit - decision`. -/
theorem claim_C9_empty_players (g : Game) (decisions : Dict ℚ) (h : g.players = []) :
    g.calculate_payoffs decisions =
      decisions.map (fun kv => (kv.1, g.investment_limit - kv.2)) := by
  simp [Game.calculate_payoffs, calcPayoffsCore, h]

theorem claim_C9_witness :
    wG9.players = [] ∧
    wG9.calculate_payoffs [("X", 2)] =
      [(("X" : String), (2 : ℚ))].map (fun kv => (kv.1, wG9.investment_limit - kv.2)) :=
  ⟨rfl, claim_C9_empty_players wG9 [("X", 2)] rfl⟩

/-- C2 counterexample: on a two-player game, a decisions dict holding a
single entry (exactly what `process_investment_round` passes when the
designated human is skipped) sums to `(5-4) + 4*(3/2)/2 = 4`, not to the
claimed `(5-4) + 4*(3/2) = 7`: the pot IS partially distributed. -/
theorem claim_C2_cex :
    sumValues (wG2.calculate_payoffs [("B", 4)]) ≠
      ([(("B" : String), (4 : ℚ))].map (fun kv => wG2.investment_limit - kv.2)).sum +
        sumValues [(("B" : String), (4 : ℚ))] * wG2.multiplier := by
  norm_num [wG2, Game.init, basePlayer, Game.calculate_payoffs, calcPayoffsCore, sumValues]

/-- C2 amended: the sum of the returned payoffs equals the kept allocation
plus `len(decisions)` shares of the pot, i.e.
`sum(ceiling - d) + len(decisions) * (sum(decisions)*multiplier/len(players))`;
this equals the full multiplied pot exactly when the decisions dict has one
entry per player (no skipped participant). -/
theorem claim_C2_pot_share (g : Game) (decisions : Dict ℚ) (h : g.players ≠ []) :
    sumValues (g.calculate_payoffs decisions) =
      (decisions.map (fun kv => g.investment_limit - kv.2)).sum +
        (decisions.length : ℚ) *
          (sumValues decisions * g.multiplier / (g.players.length : ℚ)) ∧
    (decisions.length = g.players.length →
      sumValues (g.calculate_payoffs decisions) =
        (decisions.map (fun kv => g.investment_limit - kv.2)).sum +
          sumValues decisions * g.multiplier) := by
  have hn : g.players.length ≠ 0 := fun hh => h (List.length_eq_zero.mp hh)
  have h1 : sumValues (g.calculate_payoffs decisions) =
      (decisions.map (fun kv => g.investment_limit - kv.2)).sum +
        (decisions.length : ℚ) *
          (sumValues decisions * g.multiplier / (g.players.length : ℚ)) := by
    have := sumValues_map_shift g.investment_limit
      (sumValues decisions * g.multiplier / (g.players.length : ℚ)) decisions
    simpa [Game.calculate_payoffs, calcPayoffsCore, hn] using this
  refine ⟨h1, fun hlen => ?_⟩
  rw [h1, hlen]
  have hz : ((g.players.length : ℚ)) ≠ 0 := Nat.cast_ne_zero.mpr hn
  field_simp

theorem claim_C2_witness :
    wG2.players ≠ [] ∧
    (sumValues (wG2.calculate_payoffs [("H", 1), ("B", 2)]) =
        ([(("H" : String), (1 : ℚ)), ("B", 2)].map (fun kv => wG2.investment_limit - kv.2)).sum +
          (([(("H" : String), (1 : ℚ)), ("B", 2)] : Dict ℚ).length : ℚ) *
            (sumValues [(("H" : String), (1 : ℚ)), ("B", 2)] * wG2.multiplier /
              (wG2.players.length : ℚ)) ∧
      (([(("H" : String), (1 : ℚ)), ("B", 2)] : Dict ℚ).length = wG2.players.length →
        sumValues (wG2.calculate_payoffs [("H", 1), ("B", 2)]) =
          ([(("H" : String), (1 : ℚ)), ("B", 2)].map (fun kv => wG2.investment_limit - kv.2)).sum +
            sumValues [(("H" : String), (1 : ℚ)), ("B", 2)] * wG2.multiplier)) :=
  ⟨by decide, claim_C2_pot_share wG2 [("H", 1), ("B", 2)] (by decide)⟩

/- ---------------- claims about construction and GAMEOVER calls ---------------- -/

/-- C8 counterexample: constructing a Game with round count 0 (non-positive)
does not raise: `Game.__init__` performs no validation and yields an
ordinary game carrying the non-positive round count. -/
theorem claim_C8_cex :
    (Game.init "G8" (some "t") "t" [] 0 2).num_rounds = 0 ∧
    (Game.init "G8" (some "t") "t" [] 0 2).phase = Phase.INVESTMENT :=
  ⟨rfl, rfl⟩

/-- C8 amended: `Game.__init__` accepts any round count (including
non-positive ones) without error; `LLMAgent` construction does fail fast on
an unsupported provider name, raising
`ValueError("Unsupported provider: ...")` whatever the configured keys. -/
theorem claim_C8_construction (gid nowTs : String) (ts : Option String)
    (ps : List Player) (n : Int) (mult : ℚ)
    (gk okey ak : Option String) (nm ptype pers strat pid : String) (bank : ℚ)
    (hist : List String) (prov : String) (m : Option String)
    (hprov : pyLower prov ≠ "gemini" ∧ pyLower prov ≠ "openai" ∧
      pyLower prov ≠ "anthropic") :
    (Game.init gid ts nowTs ps n mult).num_rounds = n ∧
    (Game.init gid ts nowTs ps n mult).phase = Phase.INVESTMENT ∧
    llmAgentInit gk okey ak nm ptype bank pers strat hist pid prov m =
      Except.error ("Unsupported provider: " ++ pyLower prov ++ ".") := by
  refine ⟨rfl, rfl, ?_⟩
  simp [llmAgentInit, clientInit, hprov.1, hprov.2.1, hprov.2.2]

theorem claim_C8_witness :
    (pyLower "Grok" ≠ "gemini" ∧ pyLower "Grok" ≠ "openai" ∧
      pyLower "Grok" ≠ "anthropic") ∧
    ((Game.init "G8" (some "t") "t" [] (-1) 2).num_rounds = -1 ∧
      (Game.init "G8" (some "t") "t" [] (-1) 2).phase = Phase.INVESTMENT ∧
      llmAgentInit (some "k") none none "N" "ai_llm" 100 "P" "S" [] "id" "Grok" none =
        Except.error ("Unsupported provider: " ++ pyLower "Grok" ++ ".")) :=
  ⟨by decide,
   claim_C8_construction "G8" "t" (some "t") [] (-1) 2 (some "k") none none
     "N" "ai_llm" "P" "S" "id" 100 [] "Grok" none (by decide)⟩

/-- C4 counterexample: on a GAMEOVER game, `process_investment_round` is
neither rejected nor a no-op: it silently increments the round counter past
`num_rounds` and flips the phase to DISCUSSION. -/
theorem claim_C4_cex :
    wG4.phase = Phase.GAMEOVER ∧ wG4.current_round = 1 ∧ wG4.num_rounds = 1 ∧
    (wG4.process_investment_round wApi wParse none).current_round = 2 ∧
    (wG4.process_investment_round wApi wParse none).phase = Phase.DISCUSSION ∧
    (2 : Int) ≠ 1 :=
  ⟨rfl, rfl, rfl, by decide, rfl, by decide⟩

/-- C4 amended: neither phase method checks the phase; invoked on a GAMEOVER
game (whose round counter has reached `num_rounds`),
`process_investment_round` silently increments `current_round` and moves to
DISCUSSION, and `process_discussion_round` silently re-logs the final
round — appending one more entry per player to the log and re-applying the
stored payoffs to the banks — and leaves the phase GAMEOVER.  Callers must
guard externally, as every route in app.py does by checking `game.phase`. -/
theorem claim_C4_gameover_mutates (g : Game) (api : Player → Except String String)
    (parseNum : String → Option Int) (hd : Option ℚ) (hs : Option String)
    (_hphase : g.phase = Phase.GAMEOVER) (hround : g.num_rounds ≤ g.current_round) :
    (g.process_investment_round api parseNum hd).current_round = g.current_round + 1 ∧
    (g.process_investment_round api parseNum hd).phase = Phase.DISCUSSION ∧
    (g.process_discussion_round api hs).phase = Phase.GAMEOVER ∧
    (g.process_discussion_round api hs).players = g.players.map (bankAdd (payoffsRead g)) ∧
    (g.process_discussion_round api hs).current_game_log.length =
      g.current_game_log.length + g.players.length := by
  refine ⟨rfl, rfl, ?_, discuss_players g api hs, ?_⟩
  · rw [discuss_phase, if_pos hround]
  · rw [discuss_log]
    simp

theorem claim_C4_witness :
    (wG4.phase = Phase.GAMEOVER ∧ wG4.num_rounds ≤ wG4.current_round) ∧
    ((wG4.process_investment_round wApi wParse none).current_round =
        wG4.current_round + 1 ∧
      (wG4.process_investment_round wApi wParse none).phase = Phase.DISCUSSION ∧
      (wG4.process_discussion_round wApi none).phase = Phase.GAMEOVER ∧
      (wG4.process_discussion_round wApi none).players =
        wG4.players.map (bankAdd (payoffsRead wG4)) ∧
      (wG4.process_discussion_round wApi none).current_game_log.length =
        wG4.current_game_log.length + wG4.players.length) :=
  ⟨⟨rfl, by decide⟩,
   claim_C4_gameover_mutates wG4 wApi wParse none none rfl (by decide)⟩

/- ---------------- claims about the state machine ---------------- -/

theorem guarded_phase_inv {g0 g : Game} (h0p : g0.phase = Phase.INVESTMENT)
    (h0r : g0.current_round = 0) (h0n : 0 < g0.num_rounds)
    (hr : GuardedReachable g0 g) :
    g.num_rounds = g0.num_rounds ∧ 0 ≤ g.current_round ∧
    (g.phase = Phase.INVESTMENT → g.current_round < g.num_rounds) ∧
    (g.phase = Phase.DISCUSSION →
      1 ≤ g.current_round ∧ g.current_round ≤ g.num_rounds) ∧
    (g.phase = Phase.GAMEOVER → g.current_round = g.num_rounds) := by
  induction hr with
  | refl =>
      refine ⟨rfl, by rw [h0r], fun _ => by rw [h0r]; exact h0n, fun hD => ?_, fun hG => ?_⟩
      · rw [h0p] at hD
        exact absurd hD (by decide)
      · rw [h0p] at hG
        exact absurd hG (by decide)
  | @tail ga gb hr' hstep ih =>
      cases hstep with
      | invest api parseNum hd hph =>
          obtain ⟨hnum, hpos, hI, hD, hG⟩ := ih
          have hlt := hI hph
          refine ⟨?_, ?_, ?_, ?_, ?_⟩
          · rw [invest_num_rounds]
            exact hnum
          · rw [invest_current_round]
            omega
          · intro h
            rw [invest_phase] at h
            exact absurd h (by decide)
          · intro _
            rw [invest_current_round, invest_num_rounds]
            omega
          · intro h
            rw [invest_phase] at h
            exact absurd h (by decide)
      | discuss api hs hph =>
          obtain ⟨hnum, hpos, hI, hD, hG⟩ := ih
          have hd' := hD hph
          refine ⟨?_, ?_, ?_, ?_, ?_⟩
          · rw [discuss_num_rounds]
            exact hnum
          · rw [discuss_current_round]
            exact hpos
          · intro h
            rw [discuss_phase] at h
            rw [discuss_current_round, discuss_num_rounds]
            by_cases hc : ga.num_rounds ≤ ga.current_round
            · rw [if_pos hc] at h
              exact absurd h (by decide)
            · omega
          · intro h
            rw [discuss_phase] at h
            split_ifs at h
          · intro h
            rw [discuss_phase] at h
            rw [discuss_current_round, discuss_num_rounds]
            by_cases hc : ga.num_rounds ≤ ga.current_round
            · omega
            · rw [if_neg hc] at h
              exact absurd h (by decide)

/-- C3 counterexample: the phase methods have no phase guard, so the claim
fails for unrestricted call sequences: on a finished one-round game a third
call (`process_investment_round` on a GAMEOVER state) is reachable from the
initial state and drives `current_round` to 2 > `num_rounds` = 1. -/
theorem claim_C3_cex :
    wG3.phase = Phase.INVESTMENT ∧ wG3.current_round = 0 ∧ wG3.num_rounds = 1 ∧
    GameReachable wG3 wG3b ∧ wG3b.current_round = 2 ∧ wG3b.num_rounds = 1 := by
  refine ⟨rfl, rfl, rfl, ?_, ?_, ?_⟩
  · exact GameReachable.tail
      (GameReachable.tail
        (GameReachable.tail (GameReachable.refl wG3)
          (GameStep.invest wG3 wApi wParse none))
        (GameStep.discuss _ wApi none))
      (GameStep.invest _ wApi wParse none)
  · decide
  · decide

/-- C3 amended: for phase-respecting call sequences (each method invoked
only in the phase that expects it, as every caller in app.py does) from an
initial state with a positive round count, `current_round` never exceeds
`num_rounds`, the phase is GAMEOVER exactly when the round counter has
reached `num_rounds` and that round's discussion has completed (the state
is past its DISCUSSION phase), and each `process_investment_round` call
increments `current_round` by exactly 1. -/
theorem claim_C3_round_bounds (g0 g : Game) (h0p : g0.phase = Phase.INVESTMENT)
    (h0r : g0.current_round = 0) (h0n : 0 < g0.num_rounds)
    (hr : GuardedReachable g0 g) :
    g.current_round ≤ g.num_rounds ∧
    (g.phase = Phase.GAMEOVER ↔
      g.current_round = g.num_rounds ∧ g.phase ≠ Phase.DISCUSSION) ∧
    (∀ (api : Player → Except String String) (parseNum : String → Option Int)
      (hd : Option ℚ),
      (g.process_investment_round api parseNum hd).current_round =
        g.current_round + 1) := by
  obtain ⟨hnum, hpos, hI, hD, hG⟩ := guarded_phase_inv h0p h0r h0n hr
  refine ⟨?_, ⟨fun h => ⟨hG h, by rw [h]; decide⟩, fun hc => ?_⟩, fun _ _ _ => rfl⟩
  · cases hph : g.phase
    · exact le_of_lt (hI hph)
    · exact (hD hph).2
    · exact le_of_eq (hG hph)
  · obtain ⟨he, hnd⟩ := hc
    cases hph : g.phase
    · exact absurd he (by have := hI hph; omega)
    · exact absurd hph hnd
    · rfl

theorem claim_C3_witness :
    (wG3.phase = Phase.INVESTMENT ∧ wG3.current_round = 0 ∧ 0 < wG3.num_rounds ∧
      GuardedReachable wG3 wG3g) ∧
    (wG3g.current_round ≤ wG3g.num_rounds ∧
      (wG3g.phase = Phase.GAMEOVER ↔
        wG3g.current_round = wG3g.num_rounds ∧ wG3g.phase ≠ Phase.DISCUSSION) ∧
      (∀ (api : Player → Except String String) (parseNum : String → Option Int)
        (hd : Option ℚ),
        (wG3g.process_investment_round api parseNum hd).current_round =
          wG3g.current_round + 1)) := by
  have hreach : GuardedReachable wG3 wG3g :=
    GuardedReachable.tail
      (GuardedReachable.tail (GuardedReachable.refl wG3)
        (GuardedStep.invest wG3 wApi wParse none rfl))
      (GuardedStep.discuss _ wApi none rfl)
  exact ⟨⟨rfl, rfl, by decide, hreach⟩,
    claim_C3_round_bounds wG3 wG3g rfl rfl (by decide) hreach⟩

/- ---------------- lookup and fold helpers for the round claims ---------------- -/

theorem find?_by_id {ps : List Player} (hnd : (ps.map Player.player_id).Nodup)
    {p : Player} (hp : p ∈ ps) :
    ps.find? (fun q => q.player_id == p.player_id) = some p := by
  induction ps with
  | nil => cases hp
  | cons a t ih =>
      simp only [List.map_cons, List.nodup_cons] at hnd
      rcases List.mem_cons.mp hp with h | h
      · subst h
        exact List.find?_cons_of_pos _ (by simp)
      · have hne : a.player_id ≠ p.player_id := by
          intro he
          exact hnd.1 (he ▸ List.mem_map_of_mem Player.player_id h)
        rw [List.find?_cons_of_neg _ (by simp [hne])]
        exact ih hnd.2 h

theorem dget_map_pairs {α : Type} (f : Player → α) (d : α) {ps : List Player}
    (hnd : (ps.map Player.player_id).Nodup) {p : Player} (hp : p ∈ ps) :
    dget (ps.map (fun q => (q.player_id, f q))) p.player_id d = f p := by
  unfold dget
  rw [dlookup_map_pairs, find?_by_id hnd hp]
  rfl

theorem sumValues_zeros {β : Type} (l : List β) (f : β → String) :
    sumValues (l.map fun b => (f b, (0 : ℚ))) = 0 := by
  induction l with
  | nil => rfl
  | cons b t ih => simp [sumValues] at ih ⊢; exact ih

theorem invest_fold_split (api : Player → Except String String)
    (parseNum : String → Option Int) (hp : Option Player) (ps : List Player)
    (a : Dict ℚ) (b : Dict String) :
    ps.foldl
      (fun (acc : Dict ℚ × Dict String) p =>
        if skipsAs hp p then acc
        else
          let r := decideFor api parseNum p
          (dinsert p.player_id r.1 acc.1, dinsert p.player_id r.2 acc.2))
      (a, b) =
      (ps.foldl (fun x p => if skipsAs hp p then x
          else dinsert p.player_id (decideFor api parseNum p).1 x) a,
       ps.foldl (fun x p => if skipsAs hp p then x
          else dinsert p.player_id (decideFor api parseNum p).2 x) b) := by
  induction ps generalizing a b with
  | nil => rfl
  | cons p t ih =>
      by_cases h : skipsAs hp p <;> simp [h, ih]

theorem invest_results_none (g : Game) (api : Player → Except String String)
    (parseNum : String → Option Int)
    (hnd : (g.players.map Player.player_id).Nodup) :
    (g.process_investment_round api parseNum none).last_investment_results = some
      { decisions := (g.players.filter (fun p => !skipsAs g.get_human_player p)).map
          (fun p => (p.player_id, (decideFor api parseNum p).1))
        payoffs := g.calculate_payoffs
          ((g.players.filter (fun p => !skipsAs g.get_human_player p)).map
            (fun p => (p.player_id, (decideFor api parseNum p).1)))
        explanations := (g.players.filter (fun p => !skipsAs g.get_human_player p)).map
          (fun p => (p.player_id, (decideFor api parseNum p).2)) } := by
  have h1 := foldl_dinsert_skip (fun p => (decideFor api parseNum p).1)
    (skipsAs g.get_human_player) g.players [] hnd (by intro p _; simp [dkeys])
  have h2 := foldl_dinsert_skip (fun p => (decideFor api parseNum p).2)
    (skipsAs g.get_human_player) g.players [] hnd (by intro p _; simp [dkeys])
  simp only [List.nil_append] at h1 h2
  simp only [Game.process_investment_round, invest_fold_split, h1, h2]
  cases hhp : g.get_human_player <;> simp [hhp]

theorem statements_fold_llm (api : Player → Except String String) (hp : Option Player)
    (ps : List Player) (acc : Dict String)
    (hnd : (ps.map Player.player_id).Nodup)
    (hdisj : ∀ p ∈ ps, p.player_id ∉ dkeys acc)
    (hllm : ∀ p ∈ ps, isLLM p = true) :
    ps.foldl
      (fun st p =>
        match p.kind with
        | PKind.llm _ _ => dinsert p.player_id (makeStatement (api p)) st
        | PKind.base =>
            if p.player_type == "human" && designatedNe hp p then
              dinsert p.player_id "..." st
            else st)
      acc = acc ++ ps.map (fun p => (p.player_id, makeStatement (api p))) := by
  induction ps generalizing acc with
  | nil => simp
  | cons p t ih =>
      simp only [List.map_cons, List.nodup_cons] at hnd
      have hl := hllm p (List.mem_cons_self p t)
      cases hk : p.kind with
      | base => simp [isLLM, hk] at hl
      | llm pr md =>
          have hfresh : p.player_id ∉ dkeys acc := hdisj p (List.mem_cons_self p t)
          simp only [List.foldl_cons, hk]
          rw [dinsert_of_not_mem hfresh]
          have hdisj' : ∀ q ∈ t,
              q.player_id ∉ dkeys (acc ++ [(p.player_id, makeStatement (api p))]) := by
            intro q hq
            have hh1 : q.player_id ∉ dkeys acc := hdisj q (List.mem_cons_of_mem p hq)
            have hh2 : q.player_id ≠ p.player_id := by
              intro he
              exact hnd.1 (he ▸ List.mem_map_of_mem Player.player_id hq)
            simp only [dkeys, List.map_append, List.mem_append, List.map_cons,
              List.map_nil, List.mem_singleton]
            rintro (ha | hb)
            · exact hh1 ha
            · exact hh2 hb
          rw [ih (acc ++ [(p.player_id, makeStatement (api p))]) hnd.2 hdisj'
            (fun q hq => hllm q (List.mem_cons_of_mem p hq))]
          simp

theorem statements_all_llm (g : Game) (api : Player → Except String String)
    (hs : Option String)
    (hnd : (g.players.map Player.player_id).Nodup)
    (hllm : ∀ p ∈ g.players, isLLM p = true)
    (hhp : g.get_human_player = none) :
    g.statements_for api hs =
      g.players.map (fun p => (p.player_id, makeStatement (api p))) := by
  have hfold := statements_fold_llm api none g.players [] hnd
    (by intro p _; simp [dkeys]) hllm
  simp only [List.nil_append] at hfold
  simp only [Game.statements_for, hhp]
  cases hs <;> simpa using hfold

/- ---------------- claim C7: decision-source failure handling ---------------- -/

/-- C7: a Decision Source that raises on every call never aborts a round:
`make_decision` falls back to `(0, "API Error: <e>")`, `make_statement`
falls back to the ellipsis sentinel, and running both phases on an all-LLM
game with an always-raising API appends exactly one complete log entry per
participant carrying investment 0 and the fallback rationale.  Moreover for
every response the returned amount lies in `[0, 5]` (the investment
ceiling), with unparseable responses defaulting to 0. -/
theorem claim_C7_decision_source_failure (g : Game) (msg : String)
    (parseNum : String → Option Int)
    (hllm : ∀ p ∈ g.players, isLLM p = true)
    (hnames : ∀ p ∈ g.players, pyStartsWith p.name "Human_" = false)
    (hnd : (g.players.map Player.player_id).Nodup) :
    (∀ (e : String) (pn : String → Option Int),
        makeDecision (Except.error e) pn = (0, "API Error: " ++ e)) ∧
    (∀ (api : Except String String) (pn : String → Option Int),
        0 ≤ (makeDecision api pn).1 ∧ (makeDecision api pn).1 ≤ 5) ∧
    (∀ (raw : String) (pn : String → Option Int),
        pn (stripTagUpper (pyStrip raw)) = none →
        (makeDecision (Except.ok raw) pn).1 = 0) ∧
    (∀ e : String, makeStatement (Except.error e) = "...") ∧
    ((g.process_investment_round (fun _ => Except.error msg) parseNum
          none).process_discussion_round (fun _ => Except.error msg)
        none).current_game_log =
      g.current_game_log ++ g.players.map (fun p =>
        { game_id := g.game_id
          round := g.current_round + 1
          player_id := p.player_id
          player_name := p.name
          player_type := p.personality
          decision := 0
          payoff := pyRound2 g.investment_limit
          contribution := "same"
          statement := "..."
          thinking := "API Error: " ++ msg }) := by
  refine ⟨fun e pn => rfl, ?_, ?_, fun e => rfl, ?_⟩
  · intro api pn
    rcases api with e | raw
    · exact ⟨le_refl 0, by norm_num [makeDecision]⟩
    · simp only [makeDecision]
      by_cases hstart : pyStartsWith (pyUpper (pyStrip raw)) "INVESTMENT:"
      · rw [if_pos hstart]
        rcases hpn : pn (stripTagUpper (pyStrip raw)) with _ | n <;> simp only [hpn]
        · exact ⟨le_refl 0, by norm_num⟩
        · exact ⟨le_max_left 0 _, max_le (by norm_num) (min_le_left 5 n)⟩
      · rw [if_neg hstart]
        exact ⟨le_refl 0, by norm_num⟩
  · intro raw pn hpn
    simp only [makeDecision]
    by_cases hstart : pyStartsWith (pyUpper (pyStrip raw)) "INVESTMENT:"
    · rw [if_pos hstart]
      simp [hpn]
    · rw [if_neg hstart]
  · set api : Player → Except String String := fun _ => Except.error msg with hapi
    have hhp : g.get_human_player = none := by
      rw [Game.get_human_player, List.find?_eq_none]
      intro p hp
      simp [hnames p hp]
    have hres := invest_results_none g api parseNum hnd
    rw [hhp] at hres
    have hskip : ∀ p : Player, skipsAs none p = false := fun p => rfl
    simp only [hskip, Bool.not_false, List.filter_true] at hres
    have hdec : ∀ p ∈ g.players, (decideFor api parseNum p).1 = (0 : ℚ) ∧
        (decideFor api parseNum p).2 = "API Error: " ++ msg := by
      intro p hp
      have hl := hllm p hp
      cases hk : p.kind with
      | base => simp [isLLM, hk] at hl
      | llm pr md => simp [decideFor, hk, makeDecision, hapi]
    have hdecmap : (g.players.map (fun p => (p.player_id, (decideFor api parseNum p).1))) =
        g.players.map (fun p => (p.player_id, (0 : ℚ))) :=
      List.map_congr_left (fun p hp => by rw [(hdec p hp).1])
    have hexplmap : (g.players.map (fun p => (p.player_id, (decideFor api parseNum p).2))) =
        g.players.map (fun p => (p.player_id, "API Error: " ++ msg)) :=
      List.map_congr_left (fun p hp => by rw [(hdec p hp).2])
    have hsum : sumValues (g.players.map (fun p => (p.player_id, (0 : ℚ)))) = 0 :=
      sumValues_zeros _ _
    have hpay : g.calculate_payoffs (g.players.map (fun p => (p.player_id, (0 : ℚ)))) =
        g.players.map (fun p => (p.player_id, g.investment_limit)) := by
      simp only [Game.calculate_payoffs, calcPayoffsCore, hsum, zero_mul, zero_div,
        ite_self, List.map_map]
      refine List.map_congr_left ?_
      intro p hp
      simp
    rw [hdecmap, hexplmap, hpay] at hres
    set g1 := g.process_investment_round api parseNum none with hg1
    have hinv : invResultsOf g1 =
        { decisions := g.players.map (fun p => (p.player_id, (0 : ℚ)))
          payoffs := g.players.map (fun p => (p.player_id, g.investment_limit))
          explanations := g.players.map (fun p => (p.player_id, "API Error: " ++ msg)) } := by
      rw [invResultsOf, hres]
      rfl
    have hstmts : g1.statements_for api none =
        g.players.map (fun p => (p.player_id, "...")) := by
      have hst := statements_all_llm g1 api none hnd hllm hhp
      exact hst
    rw [discuss_log g1 api none, hinv, hstmts]
    have havg : (if ((g.players.map (fun p => (p.player_id, (0 : ℚ)))).length = 0) then (0 : ℚ)
        else sumValues (g.players.map (fun p => (p.player_id, (0 : ℚ)))) /
          (((g.players.map (fun p => (p.player_id, (0 : ℚ)))).length : ℚ))) = 0 := by
      rcases Nat.eq_zero_or_pos (g.players.map (fun p => (p.player_id, (0 : ℚ)))).length
        with h0 | h0
      · simp [h0]
      · simp [Nat.pos_iff_ne_zero.mp h0, hsum]
    show g.current_game_log ++ _ = g.current_game_log ++ _
    refine congrArg (fun l => g.current_game_log ++ l) ?_
    show g.players.map _ = g.players.map _
    refine List.map_congr_left ?_
    intro p hp
    have hl := hllm p hp
    cases hk : p.kind with
    | base => simp [isLLM, hk] at hl
    | llm pr md =>
        simp only [mkLogEntry, havg, hk,
          dget_map_pairs (fun _ => (0 : ℚ)) 0 hnd hp,
          dget_map_pairs (fun _ => g.investment_limit) 0 hnd hp,
          dget_map_pairs (fun _ => "...") "N/A" hnd hp,
          dget_map_pairs (fun _ => "API Error: " ++ msg) "N/A" hnd hp,
          lt_irrefl, if_false]
        rfl

theorem claim_C7_witness :
    ((∀ p ∈ wG7.players, isLLM p = true) ∧
      (∀ p ∈ wG7.players, pyStartsWith p.name "Human_" = false) ∧
      (wG7.players.map Player.player_id).Nodup) ∧
    ((∀ (e : String) (pn : String → Option Int),
        makeDecision (Except.error e) pn = (0, "API Error: " ++ e)) ∧
    (∀ (api : Except String String) (pn : String → Option Int),
        0 ≤ (makeDecision api pn).1 ∧ (makeDecision api pn).1 ≤ 5) ∧
    (∀ (raw : String) (pn : String → Option Int),
        pn (stripTagUpper (pyStrip raw)) = none →
        (makeDecision (Except.ok raw) pn).1 = 0) ∧
    (∀ e : String, makeStatement (Except.error e) = "...") ∧
    ((wG7.process_investment_round (fun _ => Except.error "boom") wParse
          none).process_discussion_round (fun _ => Except.error "boom")
        none).current_game_log =
      wG7.current_game_log ++ wG7.players.map (fun p =>
        { game_id := wG7.game_id
          round := wG7.current_round + 1
          player_id := p.player_id
          player_name := p.name
          player_type := p.personality
          decision := 0
          payoff := pyRound2 wG7.investment_limit
          contribution := "same"
          statement := "..."
          thinking := "API Error: " ++ "boom" })) :=
  ⟨⟨by decide, by decide, by decide⟩,
   claim_C7_decision_source_failure wG7 "boom" wParse (by decide) (by decide) (by decide)⟩

/- ---------------- claim C10: human detection and skipping ---------------- -/

theorem dkeys_pairs {α : Type} (f : Player → α) (l : List Player) :
    dkeys (l.map fun p => (p.player_id, f p)) = l.map Player.player_id := by
  induction l with
  | nil => rfl
  | cons p t ih =>
      simp only [dkeys, List.map_cons] at ih ⊢
      rw [ih]

theorem dkeys_calc (g : Game) (dec : Dict ℚ) :
    dkeys (g.calculate_payoffs dec) = dkeys dec := by
  simp only [Game.calculate_payoffs, calcPayoffsCore]
  exact dkeys_map_keep dec _

theorem pyRound2_zero : pyRound2 0 = 0 := by
  norm_num [pyRound2, roundHalfEven]

/-- C10: the externally-driven participant is the first player whose display
name starts with "Human_" (the kind tag plays no role); with
`human_decision=None` that player is skipped: absent from the round's
decisions and payoffs dicts, logged with decision 0 and payoff 0, bank
unchanged; a human-kind player without the prefix is resolved as an NPC
contributing decision 0 with the label "Default NPC behavior". -/
theorem claim_C10_designated_human (g : Game) (api : Player → Except String String)
    (parseNum : String → Option Int) (h : Player)
    (hfind : g.get_human_player = some h)
    (hnd : (g.players.map Player.player_id).Nodup) :
    g.get_human_player = g.players.find? (fun p => pyStartsWith p.name "Human_") ∧
    pyStartsWith h.name "Human_" = true ∧ h ∈ g.players ∧
    (∀ r, (g.process_investment_round api parseNum none).last_investment_results =
        some r →
      h.player_id ∉ dkeys r.decisions ∧ h.player_id ∉ dkeys r.payoffs ∧
      (∀ p ∈ g.players, p.kind = PKind.base → p.player_type = "human" →
        pyStartsWith p.name "Human_" = false →
        dlookup p.player_id r.decisions = some 0 ∧
        dlookup p.player_id r.explanations = some "Default NPC behavior")) ∧
    (((g.process_investment_round api parseNum none).process_discussion_round api
          none).current_game_log.drop g.current_game_log.length).map
        LogEntry.player_id = g.players.map Player.player_id ∧
    (∀ e ∈ ((g.process_investment_round api parseNum none).process_discussion_round
          api none).current_game_log.drop g.current_game_log.length,
      e.player_id = h.player_id → e.decision = 0 ∧ e.payoff = 0) ∧
    ((g.process_investment_round api parseNum none).process_discussion_round api
        none).players.find? (fun q => q.player_id == h.player_id) = some h := by
  have hmem : h ∈ g.players := List.mem_of_find?_eq_some hfind
  have hpre : pyStartsWith h.name "Human_" = true := by
    simpa using List.find?_some hfind
  have hres := invest_results_none g api parseNum hnd
  rw [hfind] at hres
  set g1 := g.process_investment_round api parseNum none with hg1
  set flt := g.players.filter (fun p => !skipsAs (some h) p) with hflt
  have hkeys : h.player_id ∉ flt.map Player.player_id := by
    intro hin
    rcases List.mem_map.mp hin with ⟨q, hq, hqid⟩
    have hqf := List.of_mem_filter hq
    simp [skipsAs, hqid] at hqf
  have hfltnd : (flt.map Player.player_id).Nodup :=
    List.Nodup.sublist (((List.filter_sublist _)).map _) hnd
  have hldec : dlookup h.player_id
      (flt.map (fun p => (p.player_id, (decideFor api parseNum p).1))) = none :=
    dlookup_eq_none_of_not_mem (by rw [dkeys_pairs]; exact hkeys)
  have hlpay : dlookup h.player_id
      (g.calculate_payoffs
        (flt.map (fun p => (p.player_id, (decideFor api parseNum p).1)))) = none := by
    refine dlookup_eq_none_of_not_mem ?_
    rw [dkeys_calc, dkeys_pairs]
    exact hkeys
  have hpay0 : dget (payoffsRead g1) h.player_id 0 = 0 := by
    rw [payoffsRead, invResultsOf, hres]
    simp only [Option.getD_some]
    rw [dget, hlpay]
    rfl
  refine ⟨rfl, hpre, hmem, ?_, ?_, ?_, ?_⟩
  · intro r hr
    rw [hres] at hr
    obtain rfl := Option.some.inj hr
    refine ⟨?_, ?_, ?_⟩
    · rw [dkeys_pairs]
      exact hkeys
    · rw [dkeys_calc, dkeys_pairs]
      exact hkeys
    · intro p hp hbase htype hpreF
      have hne : p.player_id ≠ h.player_id := by
        intro he
        have hph : p = h := List.inj_on_of_nodup_map hnd hp hmem he
        rw [hph, hpre] at hpreF
        cases hpreF
      have hpflt : p ∈ flt := by
        rw [hflt]
        refine List.mem_filter.mpr ⟨hp, ?_⟩
        simp [skipsAs, hne]
      constructor
      · rw [dlookup_map_pairs, find?_by_id hfltnd hpflt]
        simp [decideFor, hbase]
      · rw [dlookup_map_pairs, find?_by_id hfltnd hpflt]
        simp [decideFor, hbase]
  · rw [discuss_log g1 api none]
    rw [show g1.current_game_log = g.current_game_log from rfl]
    rw [List.drop_left, List.map_map]
    exact List.map_congr_left (fun p _ => rfl)
  · intro e he heid
    rw [discuss_log g1 api none,
      show g1.current_game_log = g.current_game_log from rfl, List.drop_left] at he
    rcases List.mem_map.mp he with ⟨q, hq, rfl⟩
    have hqh : q = h := List.inj_on_of_nodup_map hnd hq hmem heid
    subst hqh
    constructor
    · show dget (invResultsOf g1).decisions q.player_id 0 = 0
      rw [invResultsOf, hres]
      simp only [Option.getD_some]
      rw [dget, hldec]
      rfl
    · show pyRound2 (dget (invResultsOf g1).payoffs q.player_id 0) = 0
      rw [invResultsOf, hres]
      simp only [Option.getD_some]
      rw [dget, hlpay]
      exact pyRound2_zero
  · rw [discuss_players g1 api none, List.find?_map]
    rw [show ((fun q => q.player_id == h.player_id) ∘ bankAdd (payoffsRead g1)) =
      (fun q : Player => q.player_id == h.player_id) from rfl]
    rw [@find?_by_id g1.players hnd h hmem]
    show some (bankAdd (payoffsRead g1) h) = some h
    have hb : h.bank + dget (payoffsRead g1) h.player_id 0 = h.bank := by
      rw [hpay0, add_zero]
    rw [show bankAdd (payoffsRead g1) h = { h with bank := h.bank + dget (payoffsRead g1) h.player_id 0 } from rfl, hb]

theorem claim_C10_witness :
    (wG10.get_human_player = some (basePlayer "H" "Human_1" "human" 100) ∧
      (wG10.players.map Player.player_id).Nodup) ∧
    (wG10.get_human_player = wG10.players.find? (fun p => pyStartsWith p.name "Human_") ∧
    pyStartsWith (basePlayer "H" "Human_1" "human" 100).name "Human_" = true ∧
    basePlayer "H" "Human_1" "human" 100 ∈ wG10.players ∧
    (∀ r, (wG10.process_investment_round wApi wParse none).last_investment_results =
        some r →
      (basePlayer "H" "Human_1" "human" 100).player_id ∉ dkeys r.decisions ∧
      (basePlayer "H" "Human_1" "human" 100).player_id ∉ dkeys r.payoffs ∧
      (∀ p ∈ wG10.players, p.kind = PKind.base → p.player_type = "human" →
        pyStartsWith p.name "Human_" = false →
        dlookup p.player_id r.decisions = some 0 ∧
        dlookup p.player_id r.explanations = some "Default NPC behavior")) ∧
    (((wG10.process_investment_round wApi wParse none).process_discussion_round wApi
          none).current_game_log.drop wG10.current_game_log.length).map
        LogEntry.player_id = wG10.players.map Player.player_id ∧
    (∀ e ∈ ((wG10.process_investment_round wApi wParse none).process_discussion_round
          wApi none).current_game_log.drop wG10.current_game_log.length,
      e.player_id = (basePlayer "H" "Human_1" "human" 100).player_id →
      e.decision = 0 ∧ e.payoff = 0) ∧
    ((wG10.process_investment_round wApi wParse none).process_discussion_round wApi
        none).players.find?
      (fun q => q.player_id == (basePlayer "H" "Human_1" "human" 100).player_id) =
      some (basePlayer "H" "Human_1" "human" 100)) :=
  ⟨⟨by decide, by decide⟩,
   claim_C10_designated_human wG10 wApi wParse
     (basePlayer "H" "Human_1" "human" 100) (by decide) (by decide)⟩

/- ---------------- claim C6: the ledger invariant ---------------- -/

theorem traceSum_append (tr : List (Dict ℚ)) (m : Dict ℚ) (pid : String) :
    traceSum (tr ++ [m]) pid = traceSum tr pid + dget m pid 0 := by
  simp [traceSum]

theorem trace_inv_aux (gid : String) (ts : Option String) (nowTs : String)
    (ps : List Player) (n : Int) (mult : ℚ)
    (hnd : (ps.map Player.player_id).Nodup)
    {g0 g : Game} {tr : List (Dict ℚ)}
    (hr : ReachTrace g0 tr g) :
    g0 = Game.init gid ts nowTs ps n mult →
    (g.players = ps.map (fun p => { p with bank := p.bank + traceSum tr p.player_id }) ∧
      ∀ p ∈ ps, dlookup p.player_id g.game_earnings = some (traceSum tr p.player_id)) := by
  induction hr with
  | refl =>
      intro hg0
      subst hg0
      constructor
      · have hcongr : ∀ p ∈ ps,
            ({ p with bank := p.bank + traceSum [] p.player_id } : Player) = p :=
          fun p _ => by simp [traceSum]
        rw [List.map_congr_left hcongr]
        simp
        rfl
      · intro p hp
        have hE : (Game.init gid ts nowTs ps n mult).game_earnings =
            ps.map (fun q => (q.player_id, (0 : ℚ))) := by
          show ps.foldl (fun m p => dinsert p.player_id 0 m) [] = _
          have h0 := foldl_dinsert_skip (fun _ => (0 : ℚ)) (fun _ => false) ps []
            hnd (by intro q _; simp [dkeys])
          simpa using h0
        rw [hE, dlookup_map_pairs, find?_by_id hnd hp]
        simp [traceSum]
  | @invest gb tra api parseNum hd hr' ih =>
      intro hg0
      obtain ⟨hP, hE⟩ := ih hg0
      refine ⟨?_, ?_⟩
      · rw [invest_players]
        exact hP
      · intro p hp
        rw [invest_game_earnings]
        exact hE p hp
  | @discuss gb tra api hs hr' ih =>
      intro hg0
      obtain ⟨hP, hE⟩ := ih hg0
      have hids : gb.players.map Player.player_id = ps.map Player.player_id := by
        rw [hP, List.map_map]
        exact List.map_congr_left (fun p _ => rfl)
      have hnd' : (gb.players.map Player.player_id).Nodup := by
        rw [hids]
        exact hnd
      refine ⟨?_, ?_⟩
      · rw [discuss_players, hP, List.map_map]
        refine List.map_congr_left ?_
        intro p hp
        simp [bankAdd, traceSum_append, add_assoc]
      · intro p hp
        rw [discuss_earnings]
        rw [dlookup_foldl_dadjust (payoffsRead gb) gb.players gb.game_earnings
          p.player_id hnd']
        rw [if_pos (by rw [hids]; exact List.mem_map_of_mem Player.player_id hp)]
        rw [hE p hp]
        simp [traceSum_append]

/-- C6: starting from a freshly constructed game, along any call sequence
the bank of each participant equals its starting bank plus the sum of the
payoffs applied at the successive `_log_completed_round` calls (each
`None`-payoff counting as 0), and the per-game earnings entry equals that
same sum — so banks move only at logging, by exactly the logged payoff, and
no other operation mutates them; the last conjunct restates the single-call
effect: logging adds `payoffs.get(pid, 0)` to each player's bank. -/
theorem claim_C6_bank_earnings (gid : String) (ts : Option String) (nowTs : String)
    (ps : List Player) (n : Int) (mult : ℚ)
    (hnd : (ps.map Player.player_id).Nodup)
    {tr : List (Dict ℚ)} {g : Game}
    (hr : ReachTrace (Game.init gid ts nowTs ps n mult) tr g) :
    g.players = ps.map (fun p => { p with bank := p.bank + traceSum tr p.player_id }) ∧
    (∀ p ∈ ps, dget g.game_earnings p.player_id 0 = traceSum tr p.player_id) ∧
    (∀ stmts, (g.log_completed_round stmts).players =
      g.players.map
        (fun p => { p with bank := p.bank + dget (payoffsRead g) p.player_id 0 })) := by
  obtain ⟨h1, h2⟩ := trace_inv_aux gid ts nowTs ps n mult hnd hr rfl
  refine ⟨h1, ?_, fun stmts => ?_⟩
  · intro p hp
    rw [dget, h2 p hp]
    rfl
  · exact log_round_players g stmts

theorem claim_C6_witness :
    (([wP6].map Player.player_id).Nodup) ∧
    (wG6b.players = [wP6].map
        (fun p => { p with bank := p.bank + traceSum [payoffsRead wG6a] p.player_id }) ∧
      (∀ p ∈ [wP6], dget wG6b.game_earnings p.player_id 0 =
        traceSum [payoffsRead wG6a] p.player_id) ∧
      (∀ stmts, (wG6b.log_completed_round stmts).players =
        wG6b.players.map
          (fun p => { p with bank := p.bank + dget (payoffsRead wG6b) p.player_id 0 }))) := by
  have h1 : ReachTrace wG6 [] wG6a := ReachTrace.invest wApi wParse none (ReachTrace.refl wG6)
  have hr : ReachTrace (Game.init "G6" (some "t") "t" [wP6] 1 2)
      [payoffsRead wG6a] wG6b := ReachTrace.discuss wApi none h1
  exact ⟨by decide, claim_C6_bank_earnings "G6" (some "t") "t" [wP6] 1 2 (by decide) hr⟩

/- ---------------- claim C5: serialization round trip ---------------- -/

theorem playerToDict_roundtrip (gk okey ak : Option String) (p : Player)
    (h : playerWF gk okey ak p = true) :
    ∃ p', playerFromDict gk okey ak (playerToDict p) = some p' ∧
      (p'.player_id, p'.bank) = (p.player_id, p.bank) := by
  cases hk : p.kind with
  | base =>
      have ht : ¬ p.player_type = "ai_llm" := by
        simp [playerWF, hk] at h
        exact h
      refine ⟨{ player_id := p.player_id, name := p.name, player_type := p.player_type,
                bank := p.bank, personality := p.personality, strategy := p.strategy,
                history := [], kind := PKind.base }, ?_, rfl⟩
      simp [playerFromDict, playerToDict, hk, ht]
  | llm prov mdl =>
      simp only [playerWF, hk, Bool.and_eq_true, beq_iff_eq] at h
      obtain ⟨htype, hok⟩ := h
      cases hc : clientInit gk okey ak (pyLower prov) (some mdl) with
      | error e =>
          rw [hc] at hok
          simp [exceptIsOk] at hok
      | ok r =>
          refine ⟨{ player_id := p.player_id, name := p.name,
                    player_type := p.player_type, bank := p.bank,
                    personality := p.personality, strategy := p.strategy,
                    history := [], kind := PKind.llm r.1 r.2 }, ?_, rfl⟩
          simp [playerFromDict, playerToDict, hk, htype, llmAgentInit, hc]

theorem mapM_roundtrip (gk okey ak : Option String) (ps : List Player)
    (h : ∀ p ∈ ps, playerWF gk okey ak p = true) :
    ∃ ps', playersFromDicts gk okey ak (ps.map playerToDict) = some ps' ∧
      ps'.map (fun p => (p.player_id, p.bank)) = ps.map (fun p => (p.player_id, p.bank)) := by
  induction ps with
  | nil => exact ⟨[], rfl, rfl⟩
  | cons p t ih =>
      obtain ⟨p', hp', hpb⟩ := playerToDict_roundtrip gk okey ak p (h p (List.mem_cons_self p t))
      obtain ⟨t', ht', htb⟩ := ih (fun q hq => h q (List.mem_cons_of_mem _ hq))
      refine ⟨p' :: t', ?_, ?_⟩
      · simp [playersFromDicts, hp', ht']
      · simp only [List.map_cons, htb]
        rw [show (p'.player_id, p'.bank) = (p.player_id, p.bank) from hpb]

/-- C5: `from_dict(to_dict(g))` succeeds (for the well-formed players the
application constructs, in an environment where their providers
re-initialize) and reproduces an observably identical game: same phase,
same round counter, the same bank for every participant by player id, the
same full round log, and the same per-game earnings map. -/
theorem claim_C5_roundtrip (gk okey ak : Option String) (nowTs : String) (g : Game)
    (hwf : ∀ p ∈ g.players, playerWF gk okey ak p = true) :
    ∃ g', Game.from_dict gk okey ak nowTs g.to_dict = some g' ∧
      g'.phase = g.phase ∧
      g'.current_round = g.current_round ∧
      g'.players.map (fun p => (p.player_id, p.bank)) =
        g.players.map (fun p => (p.player_id, p.bank)) ∧
      g'.current_game_log = g.current_game_log ∧
      g'.game_earnings = g.game_earnings := by
  obtain ⟨ps', hps', hb⟩ := mapM_roundtrip gk okey ak g.players hwf
  refine ⟨{ Game.init g.game_id (some g.timestamp) nowTs ps' g.num_rounds g.multiplier with
      current_round := g.current_round, current_game_log := g.current_game_log,
      game_earnings := g.game_earnings, last_discussion := g.last_discussion,
      last_investment_results := g.last_investment_results, phase := g.phase },
    ?_, rfl, rfl, hb, rfl, rfl⟩
  simp only [Game.from_dict, Game.to_dict]
  rw [hps']

theorem claim_C5_witness :
    (∀ p ∈ wG5.players, playerWF (some "k") none none p = true) ∧
    (∃ g', Game.from_dict (some "k") none none "t2" wG5.to_dict = some g' ∧
      g'.phase = wG5.phase ∧
      g'.current_round = wG5.current_round ∧
      g'.players.map (fun p => (p.player_id, p.bank)) =
        wG5.players.map (fun p => (p.player_id, p.bank)) ∧
      g'.current_game_log = wG5.current_game_log ∧
      g'.game_earnings = wG5.game_earnings) :=
  ⟨by decide, claim_C5_roundtrip (some "k") none none "t2" wG5 (by decide)⟩
